import Mathlib

/-!
Verification of the schedule-resolution / team-reconciliation pipeline of
`nhl-pp1-flashscore` (files `flashscore_schedule.py`, `nhl_pp1_targets.py`)
against its natural-language specification.

Python strings are modelled as Lean `String`; Python's whitespace `strip`,
`int()` parsing and `str.split(":")` are embedded below on `List Char`.
Machine-level caveats (Python `int()` also accepts underscore separators,
`str.isdigit` accepts non-ASCII digit codepoints) are outside the inputs any
claim touches and are noted where relevant.
-/

/-- Characters Python's `str.strip()` removes (whitespace). -/
def pyWs (c : Char) : Bool := c.isWhitespace

/-- `str.strip()` on a character list: drop whitespace from both ends. -/
def stripL (l : List Char) : List Char :=
  ((l.dropWhile pyWs).reverse.dropWhile pyWs).reverse

/-- `str.strip()` on a `String`. -/
def pyStrip (s : String) : String := ⟨stripL s.data⟩

/-- Value of a digit list, most significant first (as Python `int` on an
all-digit string). -/
def digitsVal (l : List Char) : Nat :=
  l.foldl (fun a c => a * 10 + (c.toNat - 48)) 0

/-- `int(str)` for a character list already stripped of whitespace:
optional sign, then a non-empty run of digits; anything else raises
(`none`). -/
def pyIntL (l : List Char) : Option Int :=
  match l with
  | [] => none
  | c :: ds =>
      if c = '-' then
        if ds ≠ [] ∧ ds.all Char.isDigit then some (-(digitsVal ds : Int)) else none
      else if c = '+' then
        if ds ≠ [] ∧ ds.all Char.isDigit then some (digitsVal ds : Int) else none
      else if (c :: ds).all Char.isDigit then some (digitsVal (c :: ds) : Int)
      else none

/-- Python `int(s)` for a string: strips surrounding whitespace, then parses a
signed digit run; a `ValueError` is `none`. -/
def pyInt (s : String) : Option Int := pyIntL (stripL s.data)

/-- Python `s.split(sep)` for a single-character separator: splits on every
occurrence, keeping empty parts (so `"".split(":") == [""]`). -/
def splitCh (sep : Char) : List Char → List (List Char)
  | [] => [[]]
  | c :: rest =>
      let r := splitCh sep rest
      if c = sep then [] :: r
      else
        match r with
        | [] => [[c]]
        | h :: t => (c :: h) :: t

/-- Python `f"\x7bn:02d\x7d"` for a non-negative integer: decimal digits,
zero-padded on the left to width two. -/
def fmt2 (n : Nat) : String :=
  if n < 10 then "0" ++ toString n else toString n

/-- Python `x or y` on optional strings: an absent or empty (falsy) `x`
falls through to `y`. -/
def pyOrS (a b : Option String) : Option String :=
  match a with
  | some s => if s = "" then b else some s
  | none => b

/-- Python truthiness of an optional string (`None` and `""` are falsy). -/
def isTruthyS : Option String → Bool
  | some s => s ≠ ""
  | none => false

/-- First-match lookup in an association list, as Python `dict` lookup over
the model of a dict as insertion-ordered key/value pairs with unique keys. -/
def dictGet {β : Type} (k : String) : List (String × β) → Option β
  | [] => none
  | (k', v) :: rest => if k' = k then some v else dictGet k rest

/-- Python `d[k] = v` on an insertion-ordered dict: replace in place when the
key is present (keeping its position), otherwise append at the end. -/
def dictInsert {β : Type} (m : List (String × β)) (k : String) (v : β) :
    List (String × β) :=
  match m with
  | [] => [(k, v)]
  | (k', v') :: rest =>
      if k' = k then (k, v) :: rest else (k', v') :: dictInsert rest k v

/-- One insertion step of a stable descending sort by an integer key: the new
element goes after every element whose key is greater than or equal to its
own, as Python's stable `list.sort(key=…, reverse=True)` places it. -/
def insertDescBy {α : Type} (key : α → Int) (x : α) : List α → List α
  | [] => [x]
  | y :: ys => if key x ≤ key y then y :: insertDescBy key x ys else x :: y :: ys

/-- Stable descending sort by an integer key, modelling Python's
`list.sort(key=…, reverse=True)` (stable: ties keep input order). -/
def pySortDescBy {α : Type} (key : α → Int) (l : List α) : List α :=
  l.foldl (fun acc x => insertDescBy key x acc) []

namespace FlashscoreSchedule

/-- `flashscore_schedule.mmss_to_seconds`: `'MM:SS'` to total seconds,
returning 0 on missing or malformed input (every exception is caught). -/
def mmss_to_seconds (s : String) : Int :=
  if s = "" ∨ s = "0" ∨ s = "00:00" ∨ s = "--" then 0
  else
    match splitCh ':' (stripL s.data) with
    | [a, b] =>
        match pyIntL a, pyIntL b with
        | some m, some sec => max 0 (m * 60 + sec)
        | _, _ => 0
    | _ => 0

/-- `flashscore_schedule.seconds_to_mmss`: seconds to `'MM:SS'`, clamping
negatives to 0. -/
def seconds_to_mmss (n : Int) : String :=
  let n' : Nat := (if n < 0 then 0 else n).toNat
  fmt2 (n' / 60) ++ ":" ++ fmt2 (n' % 60)

/-- `flashscore_schedule.Game`: one scheduled match as produced by the
resolver (ISO strings for the two instants, plus a source tag). -/
structure Game where
  home_name : String
  away_name : String
  start_utc : String
  start_local : String
  source : String
  deriving DecidableEq, Repr

/-- A JSON scalar as it matters to the feed parser: an integer or a string
(Python's `isinstance(ts, (int, float))` / `isinstance(ts, str)` checks;
floats carry no extra behaviour here beyond truncation to the integer
epoch, so the numeric case is modelled by its integer value). -/
inductive JVal where
  | jint (i : Int)
  | jstr (s : String)
  deriving DecidableEq, Repr

/-- Python truthiness of an optional JSON scalar (`None`, `0` and `""` are
falsy), as used by the `or`-chains in `try_json_feed`. -/
def isTruthyJ : Option JVal → Bool
  | some (JVal.jint i) => i ≠ 0
  | some (JVal.jstr s) => s ≠ ""
  | none => false

/-- Python `x or y` on optional JSON scalars. -/
def pyOrJ (a b : Option JVal) : Option JVal :=
  match a with
  | some v => if isTruthyJ (some v) then some v else b
  | none => b

/-- One event of the JSON feed, restricted to the fields `try_json_feed`
reads: the three alternatives for each team name and the three alternatives
for the start timestamp. -/
structure Event where
  homeTeam_name : Option String
  home : Option String
  homeName : Option String
  awayTeam_name : Option String
  away : Option String
  awayName : Option String
  startTimestamp : Option JVal
  startTime : Option JVal
  time : Option JVal
  deriving Repr

/-- The home-name `or`-chain of `try_json_feed`:
`(ev.get("homeTeam", \x7b\x7d) or \x7b\x7d).get("name") or ev.get("home") or
ev.get("homeName")`. -/
def homeOf (ev : Event) : Option String :=
  pyOrS (pyOrS ev.homeTeam_name ev.home) ev.homeName

/-- The away-name `or`-chain of `try_json_feed`. -/
def awayOf (ev : Event) : Option String :=
  pyOrS (pyOrS ev.awayTeam_name ev.away) ev.awayName

/-- The timestamp `or`-chain of `try_json_feed`:
`ev.get("startTimestamp") or ev.get("startTime") or ev.get("time")`. -/
def tsOf (ev : Event) : Option JVal :=
  pyOrJ (pyOrJ ev.startTimestamp ev.startTime) ev.time

/-- The timestamp-parsing chain of `try_json_feed` (lines 146–157): a
numeric value is taken as epoch seconds; an all-digit string is parsed as a
numeric epoch; any other string goes through
`datetime.fromisoformat(ts.replace("Z", "+00:00"))`, abstracted as the
parameter `isoParse` (returning the epoch instant, or `none` when the
library call raises); everything else yields no instant. -/
def parse_ts (isoParse : String → Option Int) : Option JVal → Option Int
  | some (JVal.jint i) => some i
  | some (JVal.jstr s) =>
      if s ≠ "" ∧ s.data.all Char.isDigit then some (digitsVal s.data : Int)
      else isoParse (s.replace "Z" "+00:00")
  | none => none

/-- The per-event body of the loop in `try_json_feed`: drop the event when a
team name is missing, when the timestamp cannot be parsed, or when the
event's local calendar day differs from the requested day; otherwise build
the `Game`.  `toLocal` abstracts `to_local_iso(utc_dt, tz_name)` and
`utcIso` abstracts `utc_dt.replace(microsecond=0).isoformat()`, both pure
functions of the epoch instant. -/
def processEvent (toLocal utcIso : Int → String)
    (isoParse : String → Option Int) (targetDay : String) (ev : Event) :
    Option Game :=
  if isTruthyS (homeOf ev) && isTruthyS (awayOf ev) then
    match parse_ts isoParse (tsOf ev) with
    | none => none
    | some utc =>
        if (toLocal utc).take 10 = targetDay then
          some ⟨(homeOf ev).getD "", (awayOf ev).getD "",
            utcIso utc, toLocal utc, "flashscore-json"⟩
        else none
  else none

/-- `flashscore_schedule.try_json_feed` from the event list down (the HTTP
fetch and the feed-shape selection that produce `candidates` are upstream
of this function); `targetDay` is `d.isoformat()`. -/
def try_json_feed (toLocal utcIso : Int → String)
    (isoParse : String → Option Int) (targetDay : String)
    (candidates : List Event) : List Game :=
  candidates.filterMap (processEvent toLocal utcIso isoParse targetDay)

/-- One scraped row of the HTML listing page, restricted to what
`fallback_html_scrape` reads: the stripped text of the two participant
elements (`none` when the element is absent) and the three candidate
start-time attributes. -/
structure Row where
  home_el : Option String
  away_el : Option String
  data_start_time : Option String
  data_time_ts : Option String
  data_timestamp : Option String
  deriving Repr

/-- The per-row body of the loop in `fallback_html_scrape`: drop the row
when a participant element is missing or its text is empty, when no numeric
start-time attribute is present, or when the local calendar day differs
from the requested day. -/
def processRow (toLocal utcIso : Int → String) (targetDay : String)
    (row : Row) : Option Game :=
  match row.home_el, row.away_el with
  | some home, some away =>
      if home ≠ "" ∧ away ≠ "" then
        match pyOrS (pyOrS row.data_start_time row.data_time_ts)
            row.data_timestamp with
        | some tsAttr =>
            if tsAttr ≠ "" ∧ tsAttr.data.all Char.isDigit then
              if (toLocal (digitsVal tsAttr.data : Int)).take 10 = targetDay then
                some ⟨home, away, utcIso (digitsVal tsAttr.data : Int),
                  toLocal (digitsVal tsAttr.data : Int), "flashscore-html"⟩
              else none
            else none
        | none => none
      else none
  | _, _ => none

/-- `flashscore_schedule.fallback_html_scrape` from the selected rows down
(the HTTP fetch and CSS selection are upstream); `targetDay` is
`d.isoformat()`. -/
def fallback_html_scrape (toLocal utcIso : Int → String) (targetDay : String)
    (rows : List Row) : List Game :=
  rows.filterMap (processRow toLocal utcIso targetDay)

/-- `flashscore_schedule.get_schedule` (lines 216–226), with each tier's
whole computation abstracted as its outcome: `Except.error ()` when the
tier raised any exception, `Except.ok games` when it returned `games`.
The JSON tier's result is kept only when non-empty; otherwise the HTML
tier's result is returned as-is, with an exception there degrading to the
empty list.  There is no third tier in the source. -/
def get_schedule (tierA tierB : Except Unit (List Game)) : List Game :=
  match tierA with
  | Except.ok games =>
      if games.isEmpty then
        match tierB with
        | Except.ok h => h
        | Except.error _ => []
      else games
  | Except.error _ =>
      match tierB with
      | Except.ok h => h
      | Except.error _ => []

/-- The three-tier resolver as claim C1 and spec §4.2 state it (a
comparison definition following the spec's words; the source's
`get_schedule` consults no third tier): when the JSON-feed tier and the
HTML-scrape tier both fail or yield zero games, fall through to the
authoritative official-schedule tier and return whatever it provides. -/
def get_schedule_claimed_three_tier
    (tierA tierB tierC : Except Unit (List Game)) : List Game :=
  match tierA with
  | Except.ok (g :: gs) => g :: gs
  | _ =>
      match tierB with
      | Except.ok (g :: gs) => g :: gs
      | _ =>
          match tierC with
          | Except.ok h => h
          | Except.error _ => []

end FlashscoreSchedule

namespace NhlPp1Targets

/-- `nhl_pp1_targets.TEAM_NAME_ALIASES` (lines 54–71), as an
insertion-ordered dict: Flashscore name variant to NHL official name. -/
def TEAM_NAME_ALIASES : List (String × String) :=
  [("Tampa Bay Lightning", "Tampa Bay Lightning"),
   ("New York Rangers", "New York Rangers"),
   ("NY Rangers", "New York Rangers"),
   ("New Jersey Devils", "New Jersey Devils"),
   ("NJ Devils", "New Jersey Devils"),
   ("Vegas Golden Knights", "Vegas Golden Knights"),
   ("Washington Capitals", "Washington Capitals"),
   ("St. Louis Blues", "St Louis Blues"),
   ("St Louis Blues", "St Louis Blues"),
   ("Los Angeles Kings", "Los Angeles Kings"),
   ("LA Kings", "Los Angeles Kings"),
   ("Arizona Coyotes", "Utah Hockey Club"),
   ("Utah HC", "Utah Hockey Club"),
   ("Montréal Canadiens", "Montreal Canadiens"),
   ("Montréal", "Montreal Canadiens")]

/-- `nhl_pp1_targets.normalize_team_name` (lines 77–80): strip the input,
then look it up in the alias table, falling back to the stripped input. -/
def normalize_team_name (name : String) : String :=
  let n := pyStrip name
  (dictGet n TEAM_NAME_ALIASES).getD n

/-- One row of the team-summary statistics response, restricted to the
fields `get_top5_tsh` reads.  `timesShorthanded` is `none` when the field
is absent (the code defaults it to 0); `teamId` is taken as present, as
`int(r.get("teamId"))` assumes. -/
structure TeamRow where
  teamId : Int
  teamFullName : Option String
  timesShorthanded : Option Int
  deriving DecidableEq, Repr

/-- `TeamStat`: the record `get_top5_tsh` builds per response row. -/
structure TeamStat where
  teamId : Int
  teamFullName : Option String
  timesShorthanded : Int
  deriving DecidableEq, Repr

/-- The per-row field extraction of `get_top5_tsh` (lines 146–151):
`int(r.get("timesShorthanded", 0))` defaults an absent count to zero. -/
def extractTeamStat (r : TeamRow) : TeamStat :=
  ⟨r.teamId, r.teamFullName, r.timesShorthanded.getD 0⟩

/-- `nhl_pp1_targets.get_top5_tsh` from the response rows down (the HTTP
call is upstream): extract the fields, sort by `timesShorthanded`
descending with Python's stable sort, and keep the first five. -/
def get_top5_tsh (rows : List TeamRow) : List TeamStat :=
  (pySortDescBy TeamStat.timesShorthanded (rows.map extractTeamStat)).take 5

/-- `nhl_pp1_targets.mmss_to_seconds` (lines 157–164).  Unlike its
namesake in `flashscore_schedule.py` it has no `try/except`: when either
part is not a valid integer literal, Python's `int()` raises `ValueError`,
modelled as `none`. -/
def mmss_to_seconds (mmss : String) : Option Int :=
  if mmss = "" ∨ mmss = "0:00" then some 0
  else
    match splitCh ':' mmss.data with
    | [m, s] =>
        match pyIntL (stripL m), pyIntL (stripL s) with
        | some mi, some si => some (mi * 60 + si)
        | _, _ => none
    | _ => some 0

/-- One roster entry together with the per-player statistic
`compute_pp1_candidates` fetches for it: `person.id`, `person.fullName`,
`position.abbreviation`, and the `powerPlayTimeOnIcePerGame` text returned
by `get_player_pp_toi_per_game` (`none` when the stats response has no
splits). -/
structure RosterEntry where
  person_id : Option Int
  fullName : Option String
  position : String
  ppToi : Option String
  deriving Repr

/-- Python truthiness of the optional player id (`None` and `0` falsy). -/
def isTruthyI : Option Int → Bool
  | some i => i ≠ 0
  | none => false

/-- The accumulation loop of `compute_pp1_candidates` (lines 205–214):
skip entries with a falsy id or name, default a falsy statistic text to
`"0:00"`, and convert it to seconds — a conversion that can raise
(`none` aborts the whole computation, as an uncaught exception would). -/
def collectStats : List RosterEntry → Option (List (String × String × Int × String))
  | [] => some []
  | p :: ps =>
      if isTruthyI p.person_id && isTruthyS p.fullName then
        let mmss := (pyOrS p.ppToi (some "0:00")).getD "0:00"
        match mmss_to_seconds mmss with
        | none => none
        | some secs =>
            (collectStats ps).map
              (fun rest => (p.fullName.getD "", p.position, secs, mmss) :: rest)
      else collectStats ps

/-- `nhl_pp1_targets.compute_pp1_candidates` from the roster and per-player
statistics down (the HTTP calls are upstream): collect
`(name, position, seconds, text)` per player, sort by seconds descending
(stable), and keep the top five.  `none` models an uncaught exception. -/
def compute_pp1_candidates (roster : List RosterEntry) :
    Option (List (String × String × Int × String)) :=
  (collectStats roster).map
    (fun l => (pySortDescBy (fun x => x.2.2.1) l).take 5)

/-- The per-opponent record kept in the `opponents` dict of
`build_targets` (line 249). -/
structure OppMeta where
  plays_against : String
  game_time_local : String
  source : String
  deriving DecidableEq, Repr

/-- The record a single game contributes to the `opponents` dict of
`build_targets`, if any: when exactly one canonicalized side is in the
top-N name set, the other side keyed to the matched side and the game's
local time and source; otherwise nothing. -/
def contrib (tsh_names : List String) (g : FlashscoreSchedule.Game) :
    Option (String × OppMeta) :=
  let home := normalize_team_name g.home_name
  let away := normalize_team_name g.away_name
  if home ∈ tsh_names ∧ ¬ away ∈ tsh_names then
    some (away, ⟨home, g.start_local, g.source⟩)
  else if away ∈ tsh_names ∧ ¬ home ∈ tsh_names then
    some (home, ⟨away, g.start_local, g.source⟩)
  else none

/-- The per-game body of the opponent-collection loop of `build_targets`
(lines 250–269): the `if home_is_tsh and not away_is_tsh` /
`elif away_is_tsh and not home_is_tsh` dispatch, each branch being a dict
assignment `opponents[...] = \x7b...\x7d`. -/
def buildStep (tsh_names : List String) (m : List (String × OppMeta))
    (g : FlashscoreSchedule.Game) : List (String × OppMeta) :=
  let home := normalize_team_name g.home_name
  let away := normalize_team_name g.away_name
  if home ∈ tsh_names ∧ ¬ away ∈ tsh_names then
    dictInsert m away ⟨home, g.start_local, g.source⟩
  else if away ∈ tsh_names ∧ ¬ home ∈ tsh_names then
    dictInsert m home ⟨away, g.start_local, g.source⟩
  else m

/-- The opponent-collection loop of `build_targets` (lines 249–269): fold
the day's schedule into the `opponents` dict. -/
def build_opponents (tsh_names : List String)
    (schedule : List FlashscoreSchedule.Game) : List (String × OppMeta) :=
  schedule.foldl (buildStep tsh_names) []

end NhlPp1Targets

/-! ### Helper lemmas about the embedded Python string primitives -/

theorem dropWhile_eq_self_of_all {p : Char → Bool} {l : List Char}
    (h : ∀ c ∈ l, p c = false) : l.dropWhile p = l := by
  cases l with
  | nil => rfl
  | cons c rest =>
      rw [List.dropWhile_cons_of_neg]
      simp [h c (by simp)]

theorem stripL_eq_self {l : List Char} (h : ∀ c ∈ l, pyWs c = false) :
    stripL l = l := by
  unfold stripL
  rw [dropWhile_eq_self_of_all h, dropWhile_eq_self_of_all, List.reverse_reverse]
  intro c hc
  exact h c (by simpa using hc)

theorem splitCh_cons (sep c : Char) (rest : List Char) :
    splitCh sep (c :: rest) =
      if c = sep then [] :: splitCh sep rest
      else
        match splitCh sep rest with
        | [] => [[c]]
        | h :: t => (c :: h) :: t := rfl

theorem splitCh_of_no_sep {sep : Char} {b : List Char}
    (h : ∀ c ∈ b, c ≠ sep) : splitCh sep b = [b] := by
  induction b with
  | nil => rfl
  | cons c rest ih =>
      rw [splitCh_cons, if_neg (h c (by simp)),
        ih (fun x hx => h x (by simp [hx]))]

theorem splitCh_append {sep : Char} {a b : List Char}
    (ha : ∀ c ∈ a, c ≠ sep) :
    splitCh sep (a ++ sep :: b) = a :: splitCh sep b := by
  induction a with
  | nil =>
      show splitCh sep (sep :: b) = [] :: splitCh sep b
      rw [splitCh_cons, if_pos rfl]
  | cons c rest ih =>
      show splitCh sep (c :: (rest ++ sep :: b)) = (c :: rest) :: splitCh sep b
      rw [splitCh_cons, if_neg (ha c (by simp)),
        ih (fun x hx => ha x (by simp [hx]))]

theorem isDigit_ne_minus {c : Char} (h : c.isDigit = true) : ¬ c = '-' := by
  rintro rfl; exact absurd h (by decide)

theorem isDigit_ne_plus {c : Char} (h : c.isDigit = true) : ¬ c = '+' := by
  rintro rfl; exact absurd h (by decide)

theorem pyIntL_cons (c : Char) (ds : List Char) :
    pyIntL (c :: ds) =
      if c = '-' then
        if ds ≠ [] ∧ ds.all Char.isDigit then some (-(digitsVal ds : Int)) else none
      else if c = '+' then
        if ds ≠ [] ∧ ds.all Char.isDigit then some (digitsVal ds : Int) else none
      else if (c :: ds).all Char.isDigit then some (digitsVal (c :: ds) : Int)
      else none := rfl

theorem pyIntL_digits {l : List Char} (hne : l ≠ [])
    (hd : l.all Char.isDigit = true) : pyIntL l = some (digitsVal l : Int) := by
  cases l with
  | nil => exact absurd rfl hne
  | cons c rest =>
      have hc : c.isDigit = true := by
        have := List.all_eq_true.mp hd c (by simp)
        simpa using this
      rw [pyIntL_cons, if_neg (isDigit_ne_minus hc), if_neg (isDigit_ne_plus hc),
        if_pos hd]

/-- Facts about the two-digit rendering of every number below 100: all
characters are digits (hence not whitespace, not a colon), the rendering has
exactly two characters, it parses back to the number, and it is `"00"` only
for zero. -/
theorem fmt2_facts : ∀ n : Nat, n < 100 →
    (fmt2 n).data.all (fun c => c.isDigit && !pyWs c && !(c = ':')) = true ∧
    (fmt2 n).data.length = 2 ∧
    digitsVal (fmt2 n).data = n ∧
    (fmt2 n = "00" ↔ n = 0) := by decide

theorem fmt2_ok_split {l : List Char}
    (h : l.all (fun c => c.isDigit && !pyWs c && !(c = ':')) = true) :
    (∀ c ∈ l, pyWs c = false) ∧ (∀ c ∈ l, c ≠ ':') ∧ l.all Char.isDigit = true := by
  refine ⟨?_, ?_, ?_⟩
  · intro c hc
    have := List.all_eq_true.mp h c hc
    simp only [Bool.and_eq_true, Bool.not_eq_true', decide_eq_true_eq] at this
    exact this.1.2
  · intro c hc
    have := List.all_eq_true.mp h c hc
    simp only [Bool.and_eq_true, Bool.not_eq_true', decide_eq_false_iff_not] at this
    exact this.2
  · rw [List.all_eq_true]
    intro c hc
    have := List.all_eq_true.mp h c hc
    simp only [Bool.and_eq_true] at this
    exact this.1.1

/-- C8: for every `minutes:seconds` text already in canonical two-digit form
(a zero-padded two-digit minutes field and a two-digit seconds field below
60, i.e. `fmt2 m ++ ":" ++ fmt2 s` with `m < 100` and `s < 60`), converting
the text to seconds and back returns it unchanged. -/
theorem c8_mmss_roundtrip (m s : Nat) (hm : m < 100) (hs : s < 60) :
    FlashscoreSchedule.seconds_to_mmss
      (FlashscoreSchedule.mmss_to_seconds (fmt2 m ++ ":" ++ fmt2 s)) =
      fmt2 m ++ ":" ++ fmt2 s := by
  obtain ⟨hmOk, hmLen, hmVal, hmZero⟩ := fmt2_facts m hm
  obtain ⟨hsOk, hsLen, hsVal, hsZero⟩ := fmt2_facts s (by omega)
  obtain ⟨hmWs, hmCol, hmDig⟩ := fmt2_ok_split hmOk
  obtain ⟨hsWs, hsCol, hsDig⟩ := fmt2_ok_split hsOk
  have hmNe : (fmt2 m).data ≠ [] := by
    intro h; rw [h] at hmLen; simp at hmLen
  have hsNe : (fmt2 s).data ≠ [] := by
    intro h; rw [h] at hsLen; simp at hsLen
  have hdata : (fmt2 m ++ ":" ++ fmt2 s).data
      = (fmt2 m).data ++ ':' :: (fmt2 s).data := by
    simp [String.data_append]
  by_cases h0 : m = 0 ∧ s = 0
  · obtain ⟨rfl, rfl⟩ := h0
    decide
  · have hlen5 : (fmt2 m ++ ":" ++ fmt2 s).data.length = 5 := by
      rw [hdata]; simp [hmLen, hsLen]
    have hguard : ¬ ((fmt2 m ++ ":" ++ fmt2 s) = "" ∨
        (fmt2 m ++ ":" ++ fmt2 s) = "0" ∨
        (fmt2 m ++ ":" ++ fmt2 s) = "00:00" ∨
        (fmt2 m ++ ":" ++ fmt2 s) = "--") := by
      rintro (h | h | h | h)
      · have := congrArg (fun t => t.data.length) h
        simp only [hlen5] at this
        exact absurd this (by decide)
      · have := congrArg (fun t => t.data.length) h
        simp only [hlen5] at this
        exact absurd this (by decide)
      · have hdd : (fmt2 m).data ++ ':' :: (fmt2 s).data
            = ['0', '0'] ++ ':' :: ['0', '0'] := by
          rw [← hdata, h]; rfl
        have hlen : ((fmt2 m).data).length = (['0', '0'] : List Char).length := by
          rw [hmLen]; rfl
        obtain ⟨hem, hrest⟩ := List.append_inj hdd hlen
        have hes : (fmt2 s).data = ['0', '0'] := by
          injection hrest
        have hm0 : m = 0 := hmZero.mp (String.ext hem)
        have hs0 : s = 0 := hsZero.mp (String.ext hes)
        exact h0 ⟨hm0, hs0⟩
      · have := congrArg (fun t => t.data.length) h
        simp only [hlen5] at this
        exact absurd this (by decide)
    have hAllWs : ∀ c ∈ (fmt2 m ++ ":" ++ fmt2 s).data, pyWs c = false := by
      rw [hdata]
      intro c hc
      rcases List.mem_append.mp hc with hc | hc
      · exact hmWs c hc
      · rcases List.mem_cons.mp hc with rfl | hc
        · decide
        · exact hsWs c hc
    have hstrip : stripL (fmt2 m ++ ":" ++ fmt2 s).data
        = (fmt2 m).data ++ ':' :: (fmt2 s).data := by
      rw [stripL_eq_self hAllWs, hdata]
    have hsplit : splitCh ':' ((fmt2 m).data ++ ':' :: (fmt2 s).data)
        = [(fmt2 m).data, (fmt2 s).data] := by
      rw [splitCh_append hmCol, splitCh_of_no_sep hsCol]
    have hmi : pyIntL (fmt2 m).data = some (m : Int) := by
      rw [pyIntL_digits hmNe hmDig, hmVal]
    have hsi : pyIntL (fmt2 s).data = some (s : Int) := by
      rw [pyIntL_digits hsNe hsDig, hsVal]
    have hres : FlashscoreSchedule.mmss_to_seconds (fmt2 m ++ ":" ++ fmt2 s)
        = (m : Int) * 60 + s := by
      simp only [FlashscoreSchedule.mmss_to_seconds]
      rw [if_neg hguard, hstrip, hsplit]
      simp only [hmi, hsi]
      omega
    rw [hres]
    simp only [FlashscoreSchedule.seconds_to_mmss]
    have hneg : ¬ ((m : Int) * 60 + s < 0) := by omega
    rw [if_neg hneg]
    have htn : ((m : Int) * 60 + (s : Int)).toNat = m * 60 + s := by omega
    rw [htn]
    have hdiv : (m * 60 + s) / 60 = m := by omega
    have hmod : (m * 60 + s) % 60 = s := by omega
    rw [hdiv, hmod]

/-- Witness for C8 at the concrete canonical text `"07:05"`. -/
theorem c8_mmss_roundtrip_witness :
    7 < 100 ∧ 5 < 60 ∧
      FlashscoreSchedule.seconds_to_mmss
        (FlashscoreSchedule.mmss_to_seconds "07:05") = "07:05" := by
  refine ⟨by decide, by decide, ?_⟩
  have h := c8_mmss_roundtrip 7 5 (by decide) (by decide)
  have he : fmt2 7 ++ ":" ++ fmt2 5 = "07:05" := by decide
  rw [he] at h
  exact h

/-! ### C1: tier fall-through of `get_schedule` -/

/-- A concrete game record standing for what the official-schedule source
would provide. -/
def officialGame : FlashscoreSchedule.Game :=
  ⟨"Utah Hockey Club", "St Louis Blues", "2025-10-29T17:00:00+00:00",
    "2025-10-29T19:00:00+02:00", "nhl-api"⟩

/-- C1 counterexample: when both tiers of the source's `get_schedule` fail,
it returns the empty list, not what an authoritative third tier would
provide — the source has no third tier. -/
theorem c1_counterexample :
    FlashscoreSchedule.get_schedule (Except.error ()) (Except.error ()) = [] ∧
    FlashscoreSchedule.get_schedule_claimed_three_tier (Except.error ())
      (Except.error ()) (Except.ok [officialGame]) = [officialGame] ∧
    ([] : List FlashscoreSchedule.Game) ≠ [officialGame] := by
  refine ⟨rfl, rfl, by decide⟩

/-- C1 (amended): `get_schedule` never raises — each tier's exception is
caught; a non-empty JSON-feed result is returned as is, and when the
JSON-feed tier fails or yields zero games the resolver returns the
HTML-scrape tier's result, degrading to the empty sequence when that tier
fails too.  There is no official-schedule third tier. -/
theorem c1_two_tier_fallback
    (a b : Except Unit (List FlashscoreSchedule.Game)) :
    (∀ g gs, a = Except.ok (g :: gs) →
      FlashscoreSchedule.get_schedule a b = g :: gs) ∧
    ((a = Except.error () ∨ a = Except.ok []) →
      (∀ hs, b = Except.ok hs → FlashscoreSchedule.get_schedule a b = hs) ∧
      (b = Except.error () → FlashscoreSchedule.get_schedule a b = [])) := by
  constructor
  · rintro g gs rfl
    simp [FlashscoreSchedule.get_schedule]
  · rintro (rfl | rfl) <;>
      exact ⟨fun hs h => by rw [h]; rfl, fun h => by rw [h]; rfl⟩

/-- Witness for C1's amended theorem: JSON tier raising, HTML tier
succeeding with one game. -/
theorem c1_two_tier_fallback_witness :
    FlashscoreSchedule.get_schedule (Except.error ())
      (Except.ok [officialGame]) = [officialGame] :=
  ((c1_two_tier_fallback (Except.error ())
    (Except.ok [officialGame])).2 (Or.inl rfl)).1 [officialGame] rfl

/-! ### C2: the roster-side `mmss_to_seconds` can raise -/

/-- C2: `nhl_pp1_targets.mmss_to_seconds` — the conversion
`compute_pp1_candidates` uses — raises `ValueError` (modelled as `none`)
on a two-part input with non-numeric parts, instead of returning 0: the
claim's never-raises contract is violated by the code (its namesake in
`flashscore_schedule.py` documents and implements the return-0 behaviour). -/
theorem c2_mmss_to_seconds_raises :
    NhlPp1Targets.mmss_to_seconds "ab:cd" = none ∧
    FlashscoreSchedule.mmss_to_seconds "ab:cd" = 0 := by
  exact ⟨rfl, rfl⟩

/-! ### C4: exactly-one-side rule of `build_targets` -/

/-- C4: for a game of the schedule, if after canonicalization exactly one
side is in the top-N name set, the game contributes exactly one opponent
record — keyed by the other side, with the matched side as
`plays_against` and the game's local time and source — and the loop body
performs exactly that one dict assignment; if both sides are in the set,
or neither is, the game contributes nothing and the dict is unchanged. -/
theorem c4_exactly_one_side (tsh : List String)
    (m : List (String × NhlPp1Targets.OppMeta)) (g : FlashscoreSchedule.Game) :
    (NhlPp1Targets.normalize_team_name g.home_name ∈ tsh ∧
        NhlPp1Targets.normalize_team_name g.away_name ∉ tsh →
      NhlPp1Targets.contrib tsh g =
        some (NhlPp1Targets.normalize_team_name g.away_name,
          ⟨NhlPp1Targets.normalize_team_name g.home_name,
            g.start_local, g.source⟩) ∧
      NhlPp1Targets.buildStep tsh m g =
        dictInsert m (NhlPp1Targets.normalize_team_name g.away_name)
          ⟨NhlPp1Targets.normalize_team_name g.home_name,
            g.start_local, g.source⟩) ∧
    (NhlPp1Targets.normalize_team_name g.away_name ∈ tsh ∧
        NhlPp1Targets.normalize_team_name g.home_name ∉ tsh →
      NhlPp1Targets.contrib tsh g =
        some (NhlPp1Targets.normalize_team_name g.home_name,
          ⟨NhlPp1Targets.normalize_team_name g.away_name,
            g.start_local, g.source⟩) ∧
      NhlPp1Targets.buildStep tsh m g =
        dictInsert m (NhlPp1Targets.normalize_team_name g.home_name)
          ⟨NhlPp1Targets.normalize_team_name g.away_name,
            g.start_local, g.source⟩) ∧
    ((NhlPp1Targets.normalize_team_name g.home_name ∈ tsh ↔
        NhlPp1Targets.normalize_team_name g.away_name ∈ tsh) →
      NhlPp1Targets.contrib tsh g = none ∧
      NhlPp1Targets.buildStep tsh m g = m) := by
  refine ⟨fun h => ?_, fun h => ?_, fun h => ?_⟩ <;>
    constructor <;>
    simp only [NhlPp1Targets.contrib, NhlPp1Targets.buildStep] <;>
    split_ifs <;> first | rfl | tauto

/-- A concrete game whose home side is in the top-N set and whose away
side is not. -/
def sampleTshGame : FlashscoreSchedule.Game :=
  ⟨"T", "X", "2025-10-29T17:00:00+00:00", "2025-10-29T19:00:00+02:00",
    "flashscore-json"⟩

/-- Witness for C4 at a concrete one-sided game. -/
theorem c4_exactly_one_side_witness :
    NhlPp1Targets.contrib ["T"] sampleTshGame =
      some ("X", ⟨"T", "2025-10-29T19:00:00+02:00", "flashscore-json"⟩) ∧
    NhlPp1Targets.buildStep ["T"] [] sampleTshGame =
      dictInsert [] "X" ⟨"T", "2025-10-29T19:00:00+02:00", "flashscore-json"⟩ := by
  have h := (c4_exactly_one_side ["T"] [] sampleTshGame).1 ⟨by decide, by decide⟩
  have hX : NhlPp1Targets.normalize_team_name "X" = "X" := by decide
  have hT : NhlPp1Targets.normalize_team_name "T" = "T" := by decide
  simpa [sampleTshGame, hX, hT] using h

/-! ### C6: concrete top-5 power-play selection -/

/-- The seven-player roster of C6, with the stated `pp_toi` texts. -/
def c6Roster : List NhlPp1Targets.RosterEntry :=
  [⟨some 1, some "P1", "F", some "0:00"⟩,
   ⟨some 2, some "P2", "F", some "1:30"⟩,
   ⟨some 3, some "P3", "D", some "3:45"⟩,
   ⟨some 4, some "P4", "F", some "2:10"⟩,
   ⟨some 5, some "P5", "D", some "0:50"⟩,
   ⟨some 6, some "P6", "F", some "4:00"⟩,
   ⟨some 7, some "P7", "F", some "1:00"⟩]

/-- C6 counterexample: the claimed seconds sequence `[240, 225, 130, 110,
90]` is not what the top-5 selection yields on this roster (110 seconds
corresponds to no listed input). -/
theorem c6_counterexample :
    (NhlPp1Targets.compute_pp1_candidates c6Roster).map
        (fun l => l.map (fun x => x.2.2.1)) ≠
      some [240, 225, 130, 110, 90] := by decide

/-- C6 (amended): on the roster with `pp_toi` texts
`0:00, 1:30, 3:45, 2:10, 0:50, 4:00, 1:00`, the top-5 selection by
converted seconds descending yields `[240, 225, 130, 90, 60]` in that
order. -/
theorem c6_top5_seconds :
    (NhlPp1Targets.compute_pp1_candidates c6Roster).map
        (fun l => l.map (fun x => x.2.2.1)) =
      some [240, 225, 130, 90, 60] := by decide

/-! ### C3: dedup and overwrite behaviour of the opponents dict -/

/-- `a` if present, else `b` (the priority join of two optional values). -/
def optOr {β : Type} (a b : Option β) : Option β :=
  match a with
  | some v => some v
  | none => b

theorem optOr_none_right {β : Type} (a : Option β) : optOr a none = a := by
  cases a <;> rfl

theorem optOr_assoc {β : Type} (a b c : Option β) :
    optOr (optOr a b) c = optOr a (optOr b c) := by
  cases a <;> rfl

theorem dictGet_dictInsert {β : Type} (m : List (String × β)) (k k' : String)
    (v : β) :
    dictGet k' (dictInsert m k v) = if k = k' then some v else dictGet k' m := by
  induction m with
  | nil => simp [dictInsert, dictGet]
  | cons p rest ih =>
      obtain ⟨pk, pv⟩ := p
      by_cases h1 : pk = k
      · subst h1
        simp only [dictInsert, if_pos rfl, dictGet]
        by_cases h2 : pk = k'
        · simp [h2]
        · simp [dictGet, h2]
      · simp only [dictInsert, if_neg h1, dictGet]
        by_cases h2 : pk = k'
        · have hk : ¬ k = k' := fun h => h1 (h2.trans h.symm)
          simp [h2, hk]
        · simp [h2, ih]

theorem dictGet_append {β : Type} (k : String) (l1 l2 : List (String × β)) :
    dictGet k (l1 ++ l2) = optOr (dictGet k l1) (dictGet k l2) := by
  induction l1 with
  | nil => simp [dictGet, optOr]
  | cons p rest ih =>
      obtain ⟨pk, pv⟩ := p
      simp only [List.cons_append, List.append_eq, dictGet]
      by_cases h : pk = k
      · rw [if_pos h, if_pos h]; rfl
      · rw [if_neg h, if_neg h, ih]

theorem keys_dictInsert {β : Type} (m : List (String × β)) (k : String) (v : β) :
    (dictInsert m k v).map Prod.fst =
      if k ∈ m.map Prod.fst then m.map Prod.fst else m.map Prod.fst ++ [k] := by
  induction m with
  | nil => simp [dictInsert]
  | cons p rest ih =>
      obtain ⟨pk, pv⟩ := p
      by_cases h1 : pk = k
      · subst h1
        simp [dictInsert]
      · simp only [dictInsert, if_neg h1, List.map_cons]
        rw [ih]
        by_cases h2 : k ∈ rest.map Prod.fst
        · rw [if_pos h2, if_pos (List.mem_cons_of_mem _ h2)]
        · have hmem : ¬ k ∈ pk :: rest.map Prod.fst := by
            intro hm
            rcases List.mem_cons.mp hm with h | h
            · exact h1 h.symm
            · exact h2 h
          rw [if_neg h2, if_neg hmem]
          simp

theorem nodup_keys_dictInsert {β : Type} {m : List (String × β)}
    (h : (m.map Prod.fst).Nodup) (k : String) (v : β) :
    ((dictInsert m k v).map Prod.fst).Nodup := by
  rw [keys_dictInsert]
  by_cases hk : k ∈ m.map Prod.fst
  · rw [if_pos hk]; exact h
  · rw [if_neg hk]
    simp [List.nodup_append, h, hk]

theorem buildStep_eq_contrib (tsh : List String)
    (m : List (String × NhlPp1Targets.OppMeta)) (g : FlashscoreSchedule.Game) :
    NhlPp1Targets.buildStep tsh m g =
      match NhlPp1Targets.contrib tsh g with
      | some (k, v) => dictInsert m k v
      | none => m := by
  simp only [NhlPp1Targets.buildStep, NhlPp1Targets.contrib]
  split_ifs <;> rfl

theorem nodup_keys_buildStep (tsh : List String)
    {m : List (String × NhlPp1Targets.OppMeta)} (h : (m.map Prod.fst).Nodup)
    (g : FlashscoreSchedule.Game) :
    ((NhlPp1Targets.buildStep tsh m g).map Prod.fst).Nodup := by
  rw [buildStep_eq_contrib]
  cases NhlPp1Targets.contrib tsh g with
  | none => exact h
  | some p => exact nodup_keys_dictInsert h p.1 p.2

theorem dictGet_foldl_buildStep (tsh : List String) (opp : String) :
    ∀ (sched : List FlashscoreSchedule.Game)
      (acc : List (String × NhlPp1Targets.OppMeta)),
      dictGet opp (sched.foldl (NhlPp1Targets.buildStep tsh) acc) =
        optOr (dictGet opp ((sched.filterMap (NhlPp1Targets.contrib tsh)).reverse))
          (dictGet opp acc) := by
  intro sched
  induction sched with
  | nil => intro acc; simp [dictGet, optOr]
  | cons g rest ih =>
      intro acc
      rw [List.foldl_cons, ih]
      rw [List.filterMap_cons]
      cases hc : NhlPp1Targets.contrib tsh g with
      | none =>
          rw [buildStep_eq_contrib, hc]
      | some p =>
          obtain ⟨k, v⟩ := p
          rw [buildStep_eq_contrib, hc]
          simp only [List.reverse_cons, dictGet_append, optOr_assoc]
          congr 1
          rw [dictGet_dictInsert]
          simp only [dictGet]
          by_cases h : k = opp
          · rw [if_pos h, if_pos h]; rfl
          · rw [if_neg h, if_neg h]; rfl

theorem nodup_keys_foldl_buildStep (tsh : List String) :
    ∀ (sched : List FlashscoreSchedule.Game)
      (acc : List (String × NhlPp1Targets.OppMeta)),
      (acc.map Prod.fst).Nodup →
      (((sched.foldl (NhlPp1Targets.buildStep tsh) acc)).map Prod.fst).Nodup := by
  intro sched
  induction sched with
  | nil => intro acc h; exact h
  | cons g rest ih =>
      intro acc h
      rw [List.foldl_cons]
      exact ih _ (nodup_keys_buildStep tsh h g)

/-- The two games of C3's counterexample: the same non-top-N opponent `"X"`
meets the top-N side `"T"` twice on one day, at different local times. -/
def c3GameA : FlashscoreSchedule.Game :=
  ⟨"T", "X", "u1", "2025-10-29T19:00:00+02:00", "flashscore-json"⟩

/-- Second game of C3's counterexample (later local time). -/
def c3GameB : FlashscoreSchedule.Game :=
  ⟨"T", "X", "u2", "2025-10-29T21:00:00+02:00", "flashscore-json"⟩

/-- C3 counterexample: with `"X"` the opponent in two games of one day, the
kept mapping is the one of the *second* game (`21:00`), not the first
(`19:00`): the dict assignment `opponents[away] = ...` overwrites. -/
theorem c3_counterexample :
    NhlPp1Targets.build_opponents ["T"] [c3GameA, c3GameB] =
      [("X", ⟨"T", "2025-10-29T21:00:00+02:00", "flashscore-json"⟩)] ∧
    NhlPp1Targets.contrib ["T"] c3GameA =
      some ("X", ⟨"T", "2025-10-29T19:00:00+02:00", "flashscore-json"⟩) ∧
    (⟨"T", "2025-10-29T21:00:00+02:00", "flashscore-json"⟩ :
        NhlPp1Targets.OppMeta) ≠
      ⟨"T", "2025-10-29T19:00:00+02:00", "flashscore-json"⟩ := by
  refine ⟨by decide, by decide, by decide⟩

/-- C3 (amended): the opponents dict built by `build_targets` has exactly
one entry per canonical opponent name (keys are unique), and the mapping
kept for an opponent is the one from the *last* game of the schedule that
contributes that opponent — a later game overrides an earlier one's
mapping (Python dict assignment), while the claim's one-row-per-opponent
part holds. -/
theorem c3_dedup_last_write_wins (tsh : List String)
    (sched : List FlashscoreSchedule.Game) (opp : String) :
    ((NhlPp1Targets.build_opponents tsh sched).map Prod.fst).Nodup ∧
    dictGet opp (NhlPp1Targets.build_opponents tsh sched) =
      dictGet opp ((sched.filterMap (NhlPp1Targets.contrib tsh)).reverse) := by
  constructor
  · exact nodup_keys_foldl_buildStep tsh sched [] (by simp)
  · rw [NhlPp1Targets.build_opponents, dictGet_foldl_buildStep]
    simp [dictGet, optOr_none_right]

/-! ### C5: local-day filter invariant of the two Flashscore tiers -/

/-- C5: every game produced by the JSON-feed tier and by the HTML-scrape
tier has a `start_local` whose first ten characters (the local calendar
date) equal the requested day, for every timezone rendering `toLocal` and
every upstream event/row list. -/
theorem c5_local_day_filter (toLocal utcIso : Int → String)
    (isoParse : String → Option Int) (targetDay : String)
    (evs : List FlashscoreSchedule.Event) (rows : List FlashscoreSchedule.Row)
    (g : FlashscoreSchedule.Game) :
    (g ∈ FlashscoreSchedule.try_json_feed toLocal utcIso isoParse targetDay evs →
      g.start_local.take 10 = targetDay) ∧
    (g ∈ FlashscoreSchedule.fallback_html_scrape toLocal utcIso targetDay rows →
      g.start_local.take 10 = targetDay) := by
  constructor
  · intro hg
    obtain ⟨ev, _, hev⟩ := List.mem_filterMap.mp hg
    simp only [FlashscoreSchedule.processEvent] at hev
    split at hev
    · split at hev
      · exact absurd hev (by simp)
      · split at hev
        · rename_i hday
          cases hev
          exact hday
        · exact absurd hev (by simp)
    · exact absurd hev (by simp)
  · intro hg
    obtain ⟨row, _, hrow⟩ := List.mem_filterMap.mp hg
    simp only [FlashscoreSchedule.processRow] at hrow
    split at hrow
    · split at hrow
      · split at hrow
        · split at hrow
          · split at hrow
            · rename_i hday
              cases hrow
              exact hday
            · exact absurd hrow (by simp)
          · exact absurd hrow (by simp)
        · exact absurd hrow (by simp)
      · exact absurd hrow (by simp)
    · exact absurd hrow (by simp)

/-- The concrete event of C5's witness. -/
def c5Event : FlashscoreSchedule.Event :=
  ⟨some "Vegas Golden Knights", none, none, some "St. Louis Blues", none,
    none, some (FlashscoreSchedule.JVal.jint 1761757200), none, none⟩

/-- Witness for C5 at a concrete event list whose single event survives the
filter. -/
theorem c5_local_day_filter_witness :
    (⟨"Vegas Golden Knights", "St. Louis Blues", "U",
        "2025-10-29T19:00:00+02:00", "flashscore-json"⟩ :
      FlashscoreSchedule.Game).start_local.take 10 = "2025-10-29" := by
  refine (c5_local_day_filter (fun _ => "2025-10-29T19:00:00+02:00")
    (fun _ => "U") (fun _ => none) "2025-10-29" [c5Event] [] _).1 ?_
  decide

/-! ### C9: per-event name and timestamp handling of the JSON tier -/

/-- C9: in the JSON-feed tier, an event whose home- or away-name chain is
falsy is dropped; the timestamp is parsed in strict priority order
(numeric epoch first, then an all-digit string, then the ISO-8601 library
parse on the string with `"Z"` replaced by `"+00:00"`), and an event whose
timestamp parses to nothing is dropped rather than raising. -/
theorem c9_event_parse (toLocal utcIso : Int → String)
    (isoParse : String → Option Int) (targetDay : String)
    (ev : FlashscoreSchedule.Event) :
    (isTruthyS (FlashscoreSchedule.homeOf ev) = false →
      FlashscoreSchedule.processEvent toLocal utcIso isoParse targetDay ev
        = none) ∧
    (isTruthyS (FlashscoreSchedule.awayOf ev) = false →
      FlashscoreSchedule.processEvent toLocal utcIso isoParse targetDay ev
        = none) ∧
    (∀ i : Int, FlashscoreSchedule.tsOf ev = some (FlashscoreSchedule.JVal.jint i) →
      FlashscoreSchedule.parse_ts isoParse (FlashscoreSchedule.tsOf ev)
        = some i) ∧
    (∀ s : String,
      FlashscoreSchedule.tsOf ev = some (FlashscoreSchedule.JVal.jstr s) →
      s ≠ "" → s.data.all Char.isDigit = true →
      FlashscoreSchedule.parse_ts isoParse (FlashscoreSchedule.tsOf ev)
        = some (digitsVal s.data : Int)) ∧
    (∀ s : String,
      FlashscoreSchedule.tsOf ev = some (FlashscoreSchedule.JVal.jstr s) →
      ¬ (s ≠ "" ∧ s.data.all Char.isDigit = true) →
      FlashscoreSchedule.parse_ts isoParse (FlashscoreSchedule.tsOf ev)
        = isoParse (s.replace "Z" "+00:00")) ∧
    (FlashscoreSchedule.parse_ts isoParse (FlashscoreSchedule.tsOf ev) = none →
      FlashscoreSchedule.processEvent toLocal utcIso isoParse targetDay ev
        = none) := by
  refine ⟨fun h => ?_, fun h => ?_, fun i h => ?_, fun s h hne hd => ?_,
    fun s h hnd => ?_, fun h => ?_⟩
  · simp [FlashscoreSchedule.processEvent, h]
  · simp [FlashscoreSchedule.processEvent, h]
  · rw [h]; rfl
  · rw [h]
    simp only [FlashscoreSchedule.parse_ts]
    rw [if_pos ⟨hne, hd⟩]
  · rw [h]
    simp only [FlashscoreSchedule.parse_ts]
    rw [if_neg hnd]
  · simp only [FlashscoreSchedule.processEvent, h]
    split <;> rfl

/-- The concrete event of C9's witness: an all-digit string timestamp. -/
def c9Event : FlashscoreSchedule.Event :=
  ⟨some "A", none, none, some "B", none, none, none,
    some (FlashscoreSchedule.JVal.jstr "1761757200"), none⟩

/-- Witness for C9: the digit-string branch of the timestamp parse at a
concrete event. -/
theorem c9_event_parse_witness :
    FlashscoreSchedule.parse_ts (fun _ => none)
      (FlashscoreSchedule.tsOf c9Event) = some 1761757200 := by
  have h := (c9_event_parse (fun _ => "L") (fun _ => "U") (fun _ => none)
    "2025-10-29" c9Event).2.2.2.1 "1761757200" (by decide) (by decide) (by decide)
  have hv : (digitsVal ("1761757200" : String).data : Int) = 1761757200 := by
    decide
  rw [hv] at h
  exact h

/-! ### C7: stable-sort properties of `get_top5_tsh` -/

theorem insertDescBy_perm {α : Type} (key : α → Int) (x : α) (l : List α) :
    List.Perm (insertDescBy key x l) (x :: l) := by
  induction l with
  | nil => exact List.Perm.refl _
  | cons y ys ih =>
      simp only [insertDescBy]
      by_cases h : key x ≤ key y
      · rw [if_pos h]
        exact (ih.cons y).trans (List.Perm.swap x y ys)
      · rw [if_neg h]

theorem foldl_insertDescBy_perm {α : Type} (key : α → Int) :
    ∀ (l acc : List α),
      List.Perm (l.foldl (fun acc x => insertDescBy key x acc) acc) (acc ++ l) := by
  intro l
  induction l with
  | nil => intro acc; simp
  | cons x xs ih =>
      intro acc
      rw [List.foldl_cons]
      refine (ih _).trans ?_
      refine ((insertDescBy_perm key x acc).append_right xs).trans ?_
      exact List.perm_middle.symm

theorem pySortDescBy_perm {α : Type} (key : α → Int) (l : List α) :
    List.Perm (pySortDescBy key l) l := by
  simpa using foldl_insertDescBy_perm key l []

theorem insertDescBy_sorted {α : Type} {key : α → Int} {x : α} {l : List α}
    (h : l.Pairwise (fun a b => key b ≤ key a)) :
    (insertDescBy key x l).Pairwise (fun a b => key b ≤ key a) := by
  induction l with
  | nil => simp [insertDescBy]
  | cons y ys ih =>
      obtain ⟨hhead, htail⟩ := List.pairwise_cons.mp h
      simp only [insertDescBy]
      by_cases hxy : key x ≤ key y
      · rw [if_pos hxy]
        refine List.Pairwise.cons ?_ (ih htail)
        intro z hz
        rcases List.mem_cons.mp ((insertDescBy_perm key x ys).mem_iff.mp hz) with
          rfl | hzys
        · exact hxy
        · exact hhead z hzys
      · rw [if_neg hxy]
        refine List.Pairwise.cons ?_ h
        intro z hz
        rcases List.mem_cons.mp hz with rfl | hzys
        · omega
        · have := hhead z hzys
          omega

theorem foldl_insertDescBy_sorted {α : Type} (key : α → Int) :
    ∀ (l acc : List α), acc.Pairwise (fun a b => key b ≤ key a) →
      (l.foldl (fun acc x => insertDescBy key x acc) acc).Pairwise
        (fun a b => key b ≤ key a) := by
  intro l
  induction l with
  | nil => intro acc h; exact h
  | cons x xs ih =>
      intro acc h
      rw [List.foldl_cons]
      exact ih _ (insertDescBy_sorted h)

theorem pySortDescBy_sorted {α : Type} (key : α → Int) (l : List α) :
    (pySortDescBy key l).Pairwise (fun a b => key b ≤ key a) :=
  foldl_insertDescBy_sorted key l [] (List.Pairwise.nil)

/-- The strengthened order on index-tagged elements that expresses
stability: strictly greater key first, and among equal keys the smaller
original index first. -/
def stableRel {α : Type} (key : α → Int) (a b : Nat × α) : Prop :=
  key b.2 < key a.2 ∨ (key a.2 = key b.2 ∧ a.1 < b.1)

theorem insertDescBy_stable {α : Type} (key : α → Int) (x : Nat × α) :
    ∀ (l : List (Nat × α)), l.Pairwise (stableRel key) →
      (∀ a ∈ l, a.1 < x.1) →
      (insertDescBy (fun p => key p.2) x l).Pairwise (stableRel key) := by
  intro l
  induction l with
  | nil => intro _ _; simp [insertDescBy]
  | cons y ys ih =>
      intro hl hidx
      obtain ⟨hhead, htail⟩ := List.pairwise_cons.mp hl
      simp only [insertDescBy]
      by_cases hxy : key x.2 ≤ key y.2
      · rw [if_pos hxy]
        refine List.Pairwise.cons ?_
          (ih htail (fun a ha => hidx a (List.mem_cons_of_mem y ha)))
        intro z hz
        rcases List.mem_cons.mp
            ((insertDescBy_perm (fun p => key p.2) x ys).mem_iff.mp hz) with
          rfl | hzys
        · rcases lt_or_eq_of_le hxy with hlt | heq
          · exact Or.inl hlt
          · exact Or.inr ⟨heq.symm, hidx y (List.mem_cons_self y ys)⟩
        · exact hhead z hzys
      · rw [if_neg hxy]
        refine List.Pairwise.cons ?_ hl
        intro z hz
        rcases List.mem_cons.mp hz with rfl | hzys
        · exact Or.inl (by omega)
        · rcases hhead z hzys with h1 | h2
          · exact Or.inl (by omega)
          · have := h2.1
            exact Or.inl (by omega)

theorem foldl_insertDescBy_stable {α : Type} (key : α → Int) :
    ∀ (l acc : List (Nat × α)),
      acc.Pairwise (stableRel key) →
      l.Pairwise (fun a b => a.1 < b.1) →
      (∀ a ∈ acc, ∀ b ∈ l, a.1 < b.1) →
      (l.foldl (fun acc x => insertDescBy (fun p => key p.2) x acc)
        acc).Pairwise (stableRel key) := by
  intro l
  induction l with
  | nil => intro acc h _ _; exact h
  | cons x xs ih =>
      intro acc hacc hl hcross
      rw [List.foldl_cons]
      obtain ⟨hxhead, hxtail⟩ := List.pairwise_cons.mp hl
      apply ih
      · exact insertDescBy_stable key x acc hacc
          (fun a ha => hcross a ha x (List.mem_cons_self x xs))
      · exact hxtail
      · intro a ha b hb
        rcases List.mem_cons.mp
            ((insertDescBy_perm (fun p => key p.2) x acc).mem_iff.mp ha) with
          rfl | haacc
        · exact hxhead b hb
        · exact hcross a haacc b (List.mem_cons_of_mem x hb)

theorem pySortDescBy_stable {α : Type} (key : α → Int) (l : List (Nat × α))
    (hl : l.Pairwise (fun a b => a.1 < b.1)) :
    (pySortDescBy (fun p => key p.2) l).Pairwise (stableRel key) :=
  foldl_insertDescBy_stable key l [] List.Pairwise.nil hl (by simp)

theorem insertDescBy_map_snd {α : Type} (key : α → Int) (x : Nat × α)
    (l : List (Nat × α)) :
    (insertDescBy (fun p => key p.2) x l).map Prod.snd =
      insertDescBy key x.2 (l.map Prod.snd) := by
  induction l with
  | nil => rfl
  | cons y ys ih =>
      simp only [insertDescBy, List.map_cons]
      by_cases h : key x.2 ≤ key y.2
      · rw [if_pos h, if_pos h, List.map_cons, ih]
      · rw [if_neg h, if_neg h]
        simp

theorem foldl_insertDescBy_map_snd {α : Type} (key : α → Int) :
    ∀ (l acc : List (Nat × α)),
      (l.foldl (fun acc x => insertDescBy (fun p => key p.2) x acc)
          acc).map Prod.snd =
        (l.map Prod.snd).foldl (fun acc x => insertDescBy key x acc)
          (acc.map Prod.snd) := by
  intro l
  induction l with
  | nil => intro acc; rfl
  | cons x xs ih =>
      intro acc
      rw [List.map_cons, List.foldl_cons, List.foldl_cons, ih,
        insertDescBy_map_snd]

theorem pySortDescBy_map_snd {α : Type} (key : α → Int) (l : List (Nat × α)) :
    (pySortDescBy (fun p => key p.2) l).map Prod.snd =
      pySortDescBy key (l.map Prod.snd) := by
  simpa using foldl_insertDescBy_map_snd key l []

theorem fst_le_of_mem_enumFrom {α : Type} :
    ∀ {l : List α} {n : Nat} {b : Nat × α}, b ∈ List.enumFrom n l → n ≤ b.1 := by
  intro l
  induction l with
  | nil => intro n b hb; simp [List.enumFrom] at hb
  | cons x xs ih =>
      intro n b hb
      rcases List.mem_cons.mp hb with rfl | hb
      · exact Nat.le_refl n
      · exact Nat.le_of_succ_le (ih hb)

theorem pairwise_fst_enumFrom {α : Type} :
    ∀ (l : List α) (n : Nat),
      (List.enumFrom n l).Pairwise (fun a b => a.1 < b.1) := by
  intro l
  induction l with
  | nil => intro n; simp [List.enumFrom]
  | cons x xs ih =>
      intro n
      refine List.Pairwise.cons ?_ (ih (n + 1))
      intro b hb
      exact Nat.lt_of_succ_le (fst_le_of_mem_enumFrom hb)

theorem pairwise_fst_enum {α : Type} (l : List α) :
    l.enum.Pairwise (fun a b => a.1 < b.1) :=
  pairwise_fst_enumFrom l 0

/-- C7: `get_top5_tsh` equals the first five elements of the stable
descending sort of the extracted rows — the sort ignores the original
position (`pySortDescBy_map_snd` link through the index-tagged list), is a
permutation of the extracted rows, is descending in `timesShorthanded`,
breaks ties by original response order (the index-tagged sort satisfies
`stableRel`), truncates to at most five rows (fewer when the response has
fewer), and an absent `timesShorthanded` extracts as zero. -/
theorem c7_top5_tsh_spec (rows : List NhlPp1Targets.TeamRow) :
    NhlPp1Targets.get_top5_tsh rows =
      ((pySortDescBy (fun p => p.2.timesShorthanded)
          ((rows.map NhlPp1Targets.extractTeamStat).enum)).map Prod.snd).take 5 ∧
    (NhlPp1Targets.get_top5_tsh rows).length = min 5 rows.length ∧
    (NhlPp1Targets.get_top5_tsh rows).Pairwise
      (fun a b => b.timesShorthanded ≤ a.timesShorthanded) ∧
    List.Perm
      (pySortDescBy NhlPp1Targets.TeamStat.timesShorthanded
        (rows.map NhlPp1Targets.extractTeamStat))
      (rows.map NhlPp1Targets.extractTeamStat) ∧
    (pySortDescBy (fun p => p.2.timesShorthanded)
        ((rows.map NhlPp1Targets.extractTeamStat).enum)).Pairwise
      (stableRel NhlPp1Targets.TeamStat.timesShorthanded) ∧
    (∀ (tid : Int) (name : Option String),
      NhlPp1Targets.extractTeamStat ⟨tid, name, none⟩ = ⟨tid, name, 0⟩) := by
  refine ⟨?_, ?_, ?_, pySortDescBy_perm _ _, ?_, fun tid name => rfl⟩
  · rw [pySortDescBy_map_snd, List.enum_map_snd]
    rfl
  · simp only [NhlPp1Targets.get_top5_tsh, List.length_take,
      (pySortDescBy_perm NhlPp1Targets.TeamStat.timesShorthanded
        (rows.map NhlPp1Targets.extractTeamStat)).length_eq,
      List.length_map]
  · exact List.Pairwise.sublist (List.take_sublist 5 _)
      (pySortDescBy_sorted NhlPp1Targets.TeamStat.timesShorthanded _)
  · exact pySortDescBy_stable NhlPp1Targets.TeamStat.timesShorthanded _
      (pairwise_fst_enum _)

/-! ### C10: idempotence of `normalize_team_name` -/

theorem dropWhile_cons_false {p : Char → Bool} :
    ∀ {l : List Char} {c : Char} {cs : List Char},
      l.dropWhile p = c :: cs → p c = false := by
  intro l
  induction l with
  | nil => intro c cs h; simp [List.dropWhile] at h
  | cons x xs ih =>
      intro c cs h
      by_cases hx : p x
      · rw [List.dropWhile_cons_of_pos hx] at h
        exact ih h
      · rw [List.dropWhile_cons_of_neg hx] at h
        cases h
        simpa using hx

theorem dropWhile_idem (p : Char → Bool) (l : List Char) :
    (l.dropWhile p).dropWhile p = l.dropWhile p := by
  cases h : l.dropWhile p with
  | nil => rfl
  | cons c cs =>
      rw [List.dropWhile_cons_of_neg]
      simp [dropWhile_cons_false h]

theorem stripL_idem (l : List Char) : stripL (stripL l) = stripL l := by
  have hcc : ((l.dropWhile pyWs).reverse.dropWhile pyWs).dropWhile pyWs
      = (l.dropWhile pyWs).reverse.dropWhile pyWs :=
    dropWhile_idem pyWs (l.dropWhile pyWs).reverse
  have hstep1 : ((l.dropWhile pyWs).reverse.dropWhile pyWs).reverse.dropWhile pyWs
      = ((l.dropWhile pyWs).reverse.dropWhile pyWs).reverse := by
    obtain ⟨t, ht⟩ :=
      List.dropWhile_suffix (l := (l.dropWhile pyWs).reverse) (p := pyWs)
    have hpre : ((l.dropWhile pyWs).reverse.dropWhile pyWs).reverse ++ t.reverse
        = l.dropWhile pyWs := by
      have := congrArg List.reverse ht
      simpa using this
    cases hcr : ((l.dropWhile pyWs).reverse.dropWhile pyWs).reverse with
    | nil => rfl
    | cons x xs =>
        have hx : pyWs x = false := by
          refine dropWhile_cons_false (l := l) (c := x)
            (show List.dropWhile pyWs l = x :: (xs ++ t.reverse) from ?_)
          rw [← hpre, hcr, List.cons_append]
        rw [List.dropWhile_cons_of_neg (by simp [hx])]
  unfold stripL
  rw [hstep1, List.reverse_reverse, hcc]

theorem pyStrip_idem (s : String) : pyStrip (pyStrip s) = pyStrip s :=
  congrArg String.mk (stripL_idem s.data)

theorem dictGet_mem {β : Type} {k : String} {v : β} :
    ∀ {m : List (String × β)}, dictGet k m = some v → (k, v) ∈ m := by
  intro m
  induction m with
  | nil => intro h; simp [dictGet] at h
  | cons p rest ih =>
      obtain ⟨pk, pv⟩ := p
      intro h
      simp only [dictGet] at h
      by_cases hk : pk = k
      · rw [if_pos hk] at h
        cases h
        subst hk
        exact List.mem_cons_self _ _
      · rw [if_neg hk] at h
        exact List.mem_cons_of_mem _ (ih h)

/-- Every value of the alias table is a fixed point of
`normalize_team_name`'s two steps: it carries no surrounding whitespace,
and looking it up in the table either misses or returns it unchanged. -/
theorem aliases_values_fixed :
    ∀ p ∈ NhlPp1Targets.TEAM_NAME_ALIASES,
      pyStrip p.2 = p.2 ∧
      (dictGet p.2 NhlPp1Targets.TEAM_NAME_ALIASES).getD p.2 = p.2 := by
  decide

/-- C10: `normalize_team_name` is idempotent — stripping is idempotent and
every alias-table value is itself a fixed point of the strip-then-lookup
pipeline. -/
theorem c10_normalize_idempotent (s : String) :
    NhlPp1Targets.normalize_team_name (NhlPp1Targets.normalize_team_name s) =
      NhlPp1Targets.normalize_team_name s := by
  cases h : dictGet (pyStrip s) NhlPp1Targets.TEAM_NAME_ALIASES with
  | none =>
      simp only [NhlPp1Targets.normalize_team_name, pyStrip_idem, h,
        Option.getD_none]
  | some v =>
      have hv := aliases_values_fixed (pyStrip s, v) (dictGet_mem h)
      simp only [NhlPp1Targets.normalize_team_name, h, Option.getD_some]
      rw [hv.1, hv.2]
